import Mathlib

/-!
Verification development for `desmod/simulation.py`: a shallow embedding of
the job-orchestration core (the `simulate` job runner, the `simulate_many`
batch pipeline with its worker pool, the `_Workspace` scope, and the
`_consume_progress` aggregator), together with theorems checking the
specification's claims against it.

Modelling conventions:
 - A Python `dict` config is modelled as a structure whose fields are the
   reserved keys the core reads or writes; `Option` distinguishes an absent
   key (`none`) from a present value.  `dict.setdefault(k, d)` becomes
   `field.getD d` plus writing the default back.
 - Exceptions are modelled with `Except Err` / `Option Err` (`Err := String`,
   standing for `repr(e)`); `try/except/finally` control flow is translated
   branch by branch.
 - The caller-supplied `top_type` / `env_type` arguments of `simulate` are
   modelled as a `Behavior` record of step functions, each of which may
   update the environment and may fail.
 - Wall-clock time (`timeit.default_timer`) is an opaque input `rt`.
 - The multiprocessing queues are modelled as lists: the work queue is the
   list of items enqueued (in FIFO order), the result queue drain is a list
   that is a permutation of the per-job results, and the progress queue is a
   list of messages (a `KeyboardInterrupt` during `get()` is an explicit
   message).
-/

/-- Exception descriptions: stands for `repr(e)` of a raised exception. -/
abbrev Err := String

/-- The reserved config keys the orchestration core reads or writes.
`none` models an absent dict key. -/
structure Config where
  seq : Option Nat := none                  -- 'sim.seq'
  progressEnable : Option Bool := none      -- 'sim.progress.enable'
  workspace : Option String := none         -- 'sim.workspace'
  workspaceOverwrite : Option Bool := none  -- 'sim.workspace.overwrite'
  resultFile : Option String := none        -- 'sim.result.file'
deriving DecidableEq

/-- The observable state of a `SimEnvironment`: `now` is `env.now` and
`timeVal` is the value `env.time()` returns; the rest of the environment is
opaque to the orchestration core. -/
structure Env where
  now : Int
  timeVal : Int
deriving DecidableEq

/-- The caller-supplied `top_type` / `env_type` arguments of `simulate`,
as the step functions the job runner invokes.  Each step may update the
environment in place and may raise (`some e`). -/
structure Behavior where
  envCtor : Config → Except Err Env         -- env = env_type(config)
  preInit : Env → Env × Option Err          -- top_type.pre_init(env)
  topCtor : Env → Env × Option Err          -- top = top_type(parent=None, env=env)
  elaborate : Env → Env × Option Err        -- top.elaborate()
  run : Env → Env × Option Err              -- env.run(until=env.until)
  postSimulate : Env → Env × Option Err     -- top.post_simulate()
  getResult : Env → Env × (List (String × Int) × Option Err)
      -- top.get_result(result): entries written so far, plus optional error

/-- The result dict produced by `simulate`.  Fields are `Option`s because a
key may be absent (e.g. `sim.now` when the environment was never built). -/
structure SimResult where
  exception : Option (Option Err) := none   -- 'sim.exception'
  config : Option Config := none            -- 'config'
  now : Option Int := none                  -- 'sim.now'
  time : Option Int := none                 -- 'sim.time'
  runtime : Option Nat := none              -- 'sim.runtime'
  extra : List (String × Int) := []         -- model-specific entries
deriving DecidableEq

instance : Inhabited SimResult := ⟨{}⟩

instance {ε α : Type} [DecidableEq ε] [DecidableEq α] : DecidableEq (Except ε α)
  | .ok a, .ok b =>
      if h : a = b then isTrue (by rw [h])
      else isFalse (by intro hh; cases hh; exact h rfl)
  | .ok _, .error _ => isFalse (by intro h; cases h)
  | .error _, .ok _ => isFalse (by intro h; cases h)
  | .error e, .error f =>
      if h : e = f then isTrue (by rw [h])
      else isFalse (by intro hh; cases hh; exact h rfl)

/-- Everything observable about one `simulate` call: what it returns (or the
exception it propagates), the `_dump_result` file writes it performed, and
the final state of the (mutated) config dict. -/
structure SimOutcome where
  ret : Except Err SimResult
  dumps : List (String × SimResult)
  finalConfig : Config
deriving DecidableEq

/-- Output of the inner `try` block of `simulate` (lines 147-158). -/
structure StepOut where
  config : Config
  env : Env
  extra : List (String × Int)
  err : Option Err
deriving DecidableEq

/-- The inner `try` of `simulate`: `pre_init`, the `_progress_notification`
entry (whose `setdefault('sim.progress.enable', False)` mutates the config),
top construction, `elaborate`, `env.run`, `post_simulate`, `get_result`.
Stops at the first step that raises. -/
def runSteps (beh : Behavior) (cfg : Config) (env : Env) : StepOut :=
  match beh.preInit env with
  | (env, some e) => ⟨cfg, env, [], some e⟩
  | (env, none) =>
    -- _progress_notification: env.config.setdefault('sim.progress.enable', False)
    let cfg := { cfg with progressEnable := some (cfg.progressEnable.getD false) }
    match beh.topCtor env with
    | (env, some e) => ⟨cfg, env, [], some e⟩
    | (env, none) =>
      match beh.elaborate env with
      | (env, some e) => ⟨cfg, env, [], some e⟩
      | (env, none) =>
        match beh.run env with
        | (env, some e) => ⟨cfg, env, [], some e⟩
        | (env, none) =>
          match beh.postSimulate env with
          | (env, some e) => ⟨cfg, env, [], some e⟩
          | (env, none) =>
            let (env, ex) := beh.getResult env
            ⟨cfg, env, ex.1, ex.2⟩

/-- `_Workspace.__init__`'s config mutations: `setdefault('sim.workspace',
os.curdir)` and `setdefault('sim.workspace.overwrite', False)`. -/
def wsDefaults (config : Config) : Config :=
  { config with workspace := some (config.workspace.getD "."),
                workspaceOverwrite := some (config.workspaceOverwrite.getD false) }

/-- `simulate(config, top_type, env_type, reraise, progress_queue)`:
initialize, elaborate and run one job, with the source's `try/except/else/
finally` structure translated branch by branch.  `rt` is the elapsed
wall-clock time (`timeit.default_timer() - t0`). -/
def simulate (beh : Behavior) (config : Config) (reraise : Bool) (rt : Nat) :
    SimOutcome :=
  -- with _Workspace(config): the constructor's setdefaults mutate config
  let config := wsDefaults config
  match beh.envCtor config with
  | .error e =>
      -- env_type(config) raised: the inner `finally` never runs, so no
      -- sim.now/sim.time and no _dump_result; outer handler (lines 172-178)
      if reraise then
        { ret := .error e, dumps := [], finalConfig := config }
      else
        { ret := .ok { exception := some (some e), config := some config,
                       runtime := some rt },
          dumps := [], finalConfig := config }
  | .ok env =>
      let so := runSteps beh config env
      -- inner `finally` (lines 165-171): result['config'], 'sim.now',
      -- 'sim.time', 'sim.runtime', then _dump_result on
      -- config.setdefault('sim.result.file')
      let res : SimResult :=
        { exception := some so.err, config := some so.config,
          now := some so.env.now, time := some so.env.timeVal,
          runtime := some rt, extra := so.extra }
      let dumps := match so.config.resultFile with
        | some f => [(f, res)]
        | none => []
      match so.err with
      | none => { ret := .ok res, dumps := dumps, finalConfig := so.config }
      | some e =>
          -- outer handler: with reraise the exception propagates; without,
          -- the setdefaults are no-ops and sim.exception is already set
          if reraise then
            { ret := .error e, dumps := dumps, finalConfig := so.config }
          else
            { ret := .ok res, dumps := dumps, finalConfig := so.config }

/-- The first exception raised by any step of a `simulate` call (if any):
environment construction, then the inner steps in order. -/
def firstFailure (beh : Behavior) (config : Config) : Option Err :=
  match beh.envCtor (wsDefaults config) with
  | .error e => some e
  | .ok env => (runSteps beh (wsDefaults config) env).err

/-- The result of a `simulate` call with `reraise=False` (which always
returns one). -/
def noReraiseResult (beh : Behavior) (config : Config) (rt : Nat) : SimResult :=
  match (simulate beh config false rt).ret with
  | .ok r => r
  | .error _ => default

/-- `runSteps` mutates only `sim.progress.enable` in the config: every other
reserved key is preserved. -/
theorem runSteps_config (beh : Behavior) (cfg : Config) (env : Env) :
    (runSteps beh cfg env).config = cfg ∨
    (runSteps beh cfg env).config =
      { cfg with progressEnable := some (cfg.progressEnable.getD false) } := by
  unfold runSteps
  rcases h1 : beh.preInit env with ⟨env1, _ | e1⟩
  · rcases h2 : beh.topCtor env1 with ⟨env2, _ | e2⟩
    · rcases h3 : beh.elaborate env2 with ⟨env3, _ | e3⟩
      · rcases h4 : beh.run env3 with ⟨env4, _ | e4⟩
        · rcases h5 : beh.postSimulate env4 with ⟨env5, _ | e5⟩
          · right; simp [h1, h2, h3, h4, h5]
          · right; simp [h1, h2, h3, h4, h5]
        · right; simp [h1, h2, h3, h4]
      · right; simp [h1, h2, h3]
    · right; simp [h1, h2]
  · left; simp [h1]

theorem runSteps_config_seq (beh : Behavior) (cfg : Config) (env : Env) :
    (runSteps beh cfg env).config.seq = cfg.seq := by
  rcases runSteps_config beh cfg env with h | h <;> rw [h]

/-- With `reraise=False`, `simulate` always returns a result (never
propagates). -/
theorem simulate_false_ok (beh : Behavior) (config : Config) (rt : Nat) :
    (simulate beh config false rt).ret = .ok (noReraiseResult beh config rt) := by
  unfold noReraiseResult simulate
  rcases hc : beh.envCtor (wsDefaults config) with e | env
  · simp [hc]
  · rcases h : (runSteps beh (wsDefaults config) env).err with _ | e <;> simp [hc, h]

/-- `r['config']['sim.seq']` of a batch result (used as the sort key on line
259 of the source). -/
def resultSeq (r : SimResult) : Nat := (r.config.getD {}).seq.getD 0

/-- `simulate` never touches `'sim.seq'`: the result's config carries the
seq the caller stamped. -/
theorem resultSeq_noReraiseResult (beh : Behavior) (c : Config) (rt : Nat) :
    resultSeq (noReraiseResult beh c rt) = c.seq.getD 0 := by
  unfold noReraiseResult simulate
  rcases hc : beh.envCtor (wsDefaults c) with e | env
  · simp only [hc]
    simp [resultSeq, wsDefaults]
  · rcases h : (runSteps beh (wsDefaults c) env).err with _ | e <;>
      · simp only [hc, h]
        simp [resultSeq, runSteps_config_seq, wsDefaults]

/-- The `sim.exception` entry of a `reraise=False` result is exactly the
first step failure (and `None` when every step succeeded). -/
theorem noReraiseResult_exception (beh : Behavior) (config : Config) (rt : Nat) :
    (noReraiseResult beh config rt).exception = some (firstFailure beh config) := by
  unfold noReraiseResult simulate firstFailure
  rcases hc : beh.envCtor (wsDefaults config) with e | env
  · simp [hc]
  · rcases h : (runSteps beh (wsDefaults config) env).err with _ | e <;>
      simp [hc, h]

/- Concrete behaviors used as witnesses. -/

/-- A job whose every step succeeds. -/
def behOk : Behavior :=
  { envCtor := fun _ => .ok ⟨0, 0⟩,
    preInit := fun e => (e, none),
    topCtor := fun e => (e, none),
    elaborate := fun e => (e, none),
    run := fun _ => (⟨10, 100⟩, none),
    postSimulate := fun e => (e, none),
    getResult := fun e => (e, ([("count", 3)], none)) }

/-- A job whose `env.run` raises. -/
def behFailRun : Behavior := { behOk with run := fun e => (e, some "RuntimeError") }

/-- A job whose environment constructor (`env_type(config)`) raises. -/
def behFailEnv : Behavior := { behOk with envCtor := fun _ => .error "EnvError" }

/-- A config with a result file path set. -/
def cfgFile : Config := { resultFile := some "result.yaml" }

/-- C2: an exception raised during any step is caught once and recorded as
`sim.exception`; with `reraise=True` it propagates and no result is returned,
with `reraise=False` the call returns normally and the failure is visible
only through a non-null `sim.exception` (null exactly when no step failed). -/
theorem simulate_exception_contract (beh : Behavior) (config : Config) (rt : Nat) :
    (∀ e, firstFailure beh config = some e →
        (simulate beh config true rt).ret = Except.error e) ∧
    ∃ r, (simulate beh config false rt).ret = Except.ok r ∧
        r.exception = some (firstFailure beh config) := by
  constructor
  · intro e' he'
    unfold firstFailure at he'
    unfold simulate
    rcases hc : beh.envCtor (wsDefaults config) with e | env
    · simp only [hc] at he'
      cases he'
      simp [hc]
    · rcases h : (runSteps beh (wsDefaults config) env).err with _ | e
      · simp [hc, h] at he'
      · simp only [hc, h] at he'
        cases he'
        simp [hc, h]
  · exact ⟨noReraiseResult beh config rt, simulate_false_ok beh config rt,
      noReraiseResult_exception beh config rt⟩

theorem simulate_exception_contract_witness :
    (simulate behFailRun {} true 0).ret = Except.error "RuntimeError" ∧
    ∃ r, (simulate behFailRun {} false 0).ret = Except.ok r ∧
        r.exception = some (firstFailure behFailRun {}) :=
  ⟨(simulate_exception_contract behFailRun {} 0).1 "RuntimeError" (by decide),
   (simulate_exception_contract behFailRun {} 0).2⟩

/-- C3 counterexample: a job whose environment constructor raises, run with
`reraise=False` and `'sim.result.file'` configured, still returns a Result —
but that Result carries no `'sim.now'` and no `'sim.time'`, and nothing is
serialized to the result file (the inner `finally` of `simulate` never ran). -/
theorem simulate_result_missing_keys :
    (simulate behFailEnv cfgFile false 0).ret =
      Except.ok (noReraiseResult behFailEnv cfgFile 0) ∧
    (noReraiseResult behFailEnv cfgFile 0).now = none ∧
    (noReraiseResult behFailEnv cfgFile 0).time = none ∧
    (wsDefaults cfgFile).resultFile = some "result.yaml" ∧
    (simulate behFailEnv cfgFile false 0).dumps = [] :=
  ⟨rfl, rfl, rfl, rfl, rfl⟩

/-- C3 amended: a `reraise=False` call always returns a Result containing
`'sim.runtime'` and the (mutated) config; `'sim.now'`, `'sim.time'` and the
serialization to `'sim.result.file'` are additionally guaranteed whenever the
environment was successfully constructed (in particular for any failure in
the model steps themselves). -/
theorem simulate_result_contents (beh : Behavior) (config : Config) (rt : Nat)
    (r : SimResult) (h : (simulate beh config false rt).ret = Except.ok r) :
    r.runtime = some rt ∧
    r.config = some (simulate beh config false rt).finalConfig ∧
    ((beh.envCtor (wsDefaults config)).isOk = true →
      r.now.isSome = true ∧ r.time.isSome = true ∧
      (simulate beh config false rt).dumps =
        ((simulate beh config false rt).finalConfig.resultFile.map
          (fun f => (f, r))).toList) := by
  unfold simulate at h ⊢
  rcases hc : beh.envCtor (wsDefaults config) with e | env
  · simp only [hc] at h ⊢
    simp only [Bool.false_eq_true, if_false, Except.ok.injEq] at h
    subst h
    refine ⟨rfl, rfl, ?_⟩
    intro hok
    simp [Except.isOk, Except.toBool] at hok
  · rcases herr : (runSteps beh (wsDefaults config) env).err with _ | e
    · simp only [hc, herr, Except.ok.injEq] at h ⊢
      subst h
      refine ⟨rfl, rfl, fun _ => ⟨rfl, rfl, ?_⟩⟩
      rcases hf : (runSteps beh (wsDefaults config) env).config.resultFile with _ | f <;>
        simp [hf, herr]
    · simp only [hc, herr, Bool.false_eq_true, if_false, Except.ok.injEq] at h ⊢
      subst h
      refine ⟨rfl, rfl, fun _ => ⟨rfl, rfl, ?_⟩⟩
      rcases hf : (runSteps beh (wsDefaults config) env).config.resultFile with _ | f <;>
        simp [hf, herr]

theorem simulate_result_contents_witness :
    (noReraiseResult behFailRun cfgFile 3).runtime = some 3 ∧
    (noReraiseResult behFailRun cfgFile 3).config =
      some (simulate behFailRun cfgFile false 3).finalConfig ∧
    ((behFailRun.envCtor (wsDefaults cfgFile)).isOk = true →
      (noReraiseResult behFailRun cfgFile 3).now.isSome = true ∧
      (noReraiseResult behFailRun cfgFile 3).time.isSome = true ∧
      (simulate behFailRun cfgFile false 3).dumps =
        ((simulate behFailRun cfgFile false 3).finalConfig.resultFile.map
          (fun f => (f, noReraiseResult behFailRun cfgFile 3))).toList) :=
  simulate_result_contents behFailRun cfgFile 3 _ (by decide)

/-- `num_workers` (lines 239-241): `min(len(configs), cpu_count())`, further
capped by `jobs` when the caller passed one. -/
def num_workers (configs : List Config) (cpu : Nat) (jobs : Option Nat) : Nat :=
  match jobs with
  | none => min configs.length cpu
  | some j => min (min configs.length cpu) j

/-- C4 counterexample: an empty batch spawns 0 workers (not "at least 1"),
and a 10-job batch with cap 4 on a 2-CPU machine spawns 2 workers, not 4. -/
theorem num_workers_not_min_one :
    num_workers [] 4 none = 0 ∧
    num_workers (List.replicate 10 {}) 2 (some 4) = 2 := by decide

/-- C4 amended: the worker count equals
`min(number_of_jobs, cpu_count, optional_cap)` always, and is at least 1
provided there is at least one job and the cap (when given) is positive;
N=1 spawns exactly 1 worker, and N=10 with cap 4 spawns exactly 4 workers
when at least 4 CPUs are available. -/
theorem num_workers_spec (cs : List Config) (cpu : Nat) (jobs : Option Nat)
    (hcpu : 1 ≤ cpu) (hN : 1 ≤ cs.length)
    (hjobs : ∀ j, jobs = some j → 1 ≤ j) :
    num_workers cs cpu jobs = min (min cs.length cpu) (jobs.getD cs.length) ∧
    1 ≤ num_workers cs cpu jobs ∧
    (cs.length = 1 → num_workers cs cpu jobs = 1) ∧
    (cs.length = 10 → jobs = some 4 → 4 ≤ cpu → num_workers cs cpu jobs = 4) := by
  rcases jobs with _ | j
  · simp only [num_workers, Option.getD]
    refine ⟨by omega, by omega, fun h1 => by omega, fun _ hj => by cases hj⟩
  · have hj : 1 ≤ j := hjobs j rfl
    have hnw : num_workers cs cpu (some j) = min (min cs.length cpu) j := rfl
    rw [hnw, Option.getD_some]
    refine ⟨rfl, by omega, fun h1 => by omega, fun h10 hj4 hcpu4 => ?_⟩
    have hj4' : j = 4 := by injection hj4
    omega

theorem num_workers_spec_witness :
    num_workers (List.replicate 10 {}) 8 (some 4) =
      min (min (List.replicate 10 ({} : Config)).length 8)
        ((some 4).getD (List.replicate 10 ({} : Config)).length) ∧
    1 ≤ num_workers (List.replicate 10 {}) 8 (some 4) ∧
    ((List.replicate 10 ({} : Config)).length = 1 →
      num_workers (List.replicate 10 {}) 8 (some 4) = 1) ∧
    ((List.replicate 10 ({} : Config)).length = 10 → some 4 = some 4 → 4 ≤ 8 →
      num_workers (List.replicate 10 {}) 8 (some 4) = 4) :=
  num_workers_spec (List.replicate 10 {}) 8 (some 4) (by decide) (by decide)
    (fun j hj => by cases hj; decide)

/-- A minimal filesystem: the process's current working directory plus the
set of existing directories (as resolved absolute paths). -/
structure FileSys where
  cwd : String
  dirs : List String
deriving DecidableEq

/-- Resolution of a possibly-relative path against a working directory
(enough structure for the core's `relpath`/`isdir`/`chdir` uses). -/
def resolvePath (cwd p : String) : String :=
  if p = "." then cwd
  else if p.startsWith "/" then p
  else cwd ++ "/" ++ p

/-- The guard `os.path.relpath(self.workspace) != os.curdir` on line 112:
true exactly when the workspace does not resolve to the current directory. -/
def notCurDir (cwd p : String) : Bool := resolvePath cwd p != cwd

/-- `_Workspace` state: the two honored config keys plus `prev_dir`, the
working directory captured by `os.getcwd()` in `__init__`. -/
structure Workspace where
  workspace : String
  overwrite : Bool
  prev_dir : String
deriving DecidableEq

/-- `_Workspace.__init__(config)` (lines 106-109). -/
def Workspace.init (config : Config) (fs : FileSys) : Workspace :=
  { workspace := config.workspace.getD ".",
    overwrite := config.workspaceOverwrite.getD false,
    prev_dir := fs.cwd }

/-- `_Workspace.__enter__` (lines 111-118): outside the degenerate case,
`rmtree` when overwriting an existing dir, `makedirs` when overwriting or
missing, then `chdir` into the workspace. -/
def Workspace.enter (w : Workspace) (fs : FileSys) : FileSys :=
  if notCurDir fs.cwd w.workspace then
    let target := resolvePath fs.cwd w.workspace
    let wsExists := fs.dirs.contains target
    -- shutil.rmtree removes the directory and everything below it
    let dirs1 :=
      if w.overwrite && wsExists then
        fs.dirs.filter (fun d => !(d == target || d.startsWith (target ++ "/")))
      else fs.dirs
    let dirs2 := if w.overwrite || !wsExists then dirs1 ++ [target] else dirs1
    { cwd := target, dirs := dirs2 }
  else fs

/-- `_Workspace.__exit__` (lines 120-121): `os.chdir(self.prev_dir)`,
unconditionally, and nothing else. -/
def Workspace.exit (w : Workspace) (fs : FileSys) : FileSys :=
  { fs with cwd := w.prev_dir }

/-- C5: whatever filesystem state `fsBody` the body left behind (success or
failure), scope exit restores the working directory captured at entry and
touches nothing else; and when the workspace resolves to the current
directory, entry performs no filesystem mutation at all. -/
theorem workspace_scope (config : Config) (fs fsBody : FileSys) :
    (Workspace.init config fs).exit fsBody = { fsBody with cwd := fs.cwd } ∧
    (resolvePath fs.cwd ((Workspace.init config fs).workspace) = fs.cwd →
      (Workspace.init config fs).enter fs = fs) := by
  constructor
  · rfl
  · intro h
    simp [Workspace.enter, notCurDir, h]

theorem workspace_scope_witness :
    (Workspace.init {} ⟨"/home/sim", ["/home/sim"]⟩).exit ⟨"/tmp", []⟩ =
      { cwd := "/home/sim", dirs := ([] : List String) } ∧
    (resolvePath "/home/sim" ((Workspace.init {} ⟨"/home/sim", ["/home/sim"]⟩).workspace) =
        "/home/sim" →
      (Workspace.init {} ⟨"/home/sim", ["/home/sim"]⟩).enter
          ⟨"/home/sim", ["/home/sim"]⟩ =
        ⟨"/home/sim", ["/home/sim"]⟩) :=
  workspace_scope {} ⟨"/home/sim", ["/home/sim"]⟩ ⟨"/tmp", []⟩

/-- The `any(config.setdefault('sim.progress.enable', False) for config in
configs)` disjunction (lines 227-228).  Generator short-circuiting does not
change the boolean value. -/
def progress_enable (configs : List Config) : Bool :=
  configs.any (fun c => c.progressEnable.getD false)

/-- Lines 234-236: `config['sim.seq'] = seq` and
`config['sim.progress.enable'] = progress_enable` for
`seq, config in enumerate(configs)`, starting the index at `i`. -/
def stampFrom (pe : Bool) : Nat → List Config → List Config
  | _, [] => []
  | i, c :: rest =>
      { c with seq := some i, progressEnable := some pe } :: stampFrom pe (i + 1) rest

/-- The batch configs as they sit on the config queue: stamped with their
submission index and the batch-wide progress flag. -/
def stampConfigs (configs : List Config) : List Config :=
  stampFrom (progress_enable configs) 0 configs

theorem stampFrom_length (pe : Bool) (i : Nat) (cs : List Config) :
    (stampFrom pe i cs).length = cs.length := by
  induction cs generalizing i with
  | nil => rfl
  | cons c rest ih => simp [stampFrom, ih]

theorem stampFrom_getElem? (pe : Bool) (cs : List Config) (i j : Nat) :
    (stampFrom pe i cs)[j]? =
      cs[j]?.map (fun c =>
        { c with seq := some (i + j), progressEnable := some pe }) := by
  induction cs generalizing i j with
  | nil => simp [stampFrom]
  | cons c rest ih =>
    cases j with
    | zero => simp [stampFrom]
    | succ j =>
      simp only [stampFrom, List.getElem?_cons_succ, ih]
      have : i + 1 + j = i + (j + 1) := by omega
      rw [this]

theorem stampFrom_map_seq (pe : Bool) (i : Nat) (cs : List Config) :
    (stampFrom pe i cs).map (fun c => c.seq.getD 0) = List.range' i cs.length := by
  induction cs generalizing i with
  | nil => rfl
  | cons c rest ih =>
    simp only [stampFrom, List.map_cons, List.length_cons, ih, List.range'_succ]
    simp

/-- C10: before any job runs, `simulate_many` overwrites every config's
`'sim.seq'` with its submission index and every config's
`'sim.progress.enable'` with the disjunction of the original values. -/
theorem stamp_overwrites (cs : List Config) (i : Nat) (c : Config)
    (h : cs[i]? = some c) :
    (stampConfigs cs).length = cs.length ∧
    (stampConfigs cs)[i]? =
      some { c with seq := some i, progressEnable := some (progress_enable cs) } := by
  refine ⟨by simp [stampConfigs, stampFrom_length], ?_⟩
  rw [stampConfigs, stampFrom_getElem?, h]
  simp

/-- A config that asks for progress reporting. -/
def cfgProg : Config := { progressEnable := some true }

/-- A config carrying a caller-provided (to-be-replaced) `'sim.seq'`. -/
def cfgSeq99 : Config := { seq := some 99 }

theorem stamp_overwrites_witness :
    (stampConfigs [cfgProg, cfgSeq99]).length = ([cfgProg, cfgSeq99] : List Config).length ∧
    (stampConfigs [cfgProg, cfgSeq99])[1]? =
      some { cfgSeq99 with
              seq := some 1,
              progressEnable := some (progress_enable [cfgProg, cfgSeq99]) } :=
  stamp_overwrites [cfgProg, cfgSeq99] 1 cfgSeq99 (by decide)

/-- `_simulate_worker` (lines 262-269), applied to the sequence of items
this worker dequeues from the shared config queue: loop, break on the `None`
sentinel, otherwise `simulate(..., reraise=False, ...)` and push the result.
(An exception would kill the worker with nothing further pushed; that branch
is unreachable because `reraise` is `False`.) -/
def simulateWorker (beh : Behavior) (rt : Nat) :
    List (Option Config) → List SimResult
  | [] => []
  | none :: _ => []
  | some c :: rest =>
      match (simulate beh c false rt).ret with
      | .ok r => r :: simulateWorker beh rt rest
      | .error _ => []

/-- The shared config queue's contents once `simulate_many` has finished
enqueuing (lines 234-250): every stamped config in submission order, then
exactly one `None` sentinel per spawned worker. -/
def work_items (configs : List Config) (cpu : Nat) (jobs : Option Nat) :
    List (Option Config) :=
  (stampConfigs configs).map some ++
    List.replicate (num_workers configs cpu jobs) none

theorem countP_isNone_replicate (n : Nat) :
    (List.replicate n (none : Option Config)).countP Option.isNone = n := by
  induction n with
  | zero => rfl
  | succ n ih => simp [List.replicate_succ, List.countP_cons, ih]

/-- C6: the queue holds one sentinel per spawned worker after all the job
configs; a worker stops exactly at its first sentinel, and runs every
earlier item with `reraise=False`, pushing exactly one result for each. -/
theorem worker_protocol (beh : Behavior) (rt : Nat) (cs : List Config)
    (cpu : Nat) (jobs : Option Nat) (items : List (Option Config)) :
    (work_items cs cpu jobs).countP Option.isNone = num_workers cs cpu jobs ∧
    (work_items cs cpu jobs).take cs.length = (stampConfigs cs).map some ∧
    simulateWorker beh rt items =
      ((items.takeWhile Option.isSome).filterMap id).map
        (fun c => noReraiseResult beh c rt) := by
  refine ⟨?_, ?_, ?_⟩
  · rw [work_items, List.countP_append, countP_isNone_replicate]
    have h0 : ((stampConfigs cs).map some).countP Option.isNone = 0 := by
      rw [List.countP_eq_zero]
      intro x hx
      rcases List.mem_map.mp hx with ⟨c, _, rfl⟩
      simp
    rw [h0, Nat.zero_add]
  · have hlen : ((stampConfigs cs).map some).length = cs.length := by
      simp [stampConfigs, stampFrom_length]
    rw [work_items, ← hlen, List.take_left]
  · induction items with
    | nil => rfl
    | cons item rest ih =>
      rcases item with _ | c
      · simp [simulateWorker, List.takeWhile_cons]
      · rw [simulateWorker, simulate_false_ok beh c rt, ih]
        simp [List.takeWhile_cons]

/-- Line 258-259: drain one result per submitted config, then
`sorted(results, key=lambda r: r['config']['sim.seq'])`. -/
def collectResults (results : List SimResult) : List SimResult :=
  results.mergeSort (fun a b => Nat.ble (resultSeq a) (resultSeq b))

/-- C1: whatever completion order the workers produced (`drained` is any
permutation of the per-job results), the batch returns exactly one result
per submitted config, in strictly ascending `'sim.seq'` order — the seqs of
the returned sequence are exactly `0, 1, ..., N-1`. -/
theorem simulate_many_ordered (beh : Behavior) (rt : Nat) (cs : List Config)
    (drained : List SimResult)
    (hperm : drained.Perm
      ((stampConfigs cs).map (fun c => noReraiseResult beh c rt))) :
    (collectResults drained).length = cs.length ∧
    (collectResults drained).map resultSeq = List.range cs.length := by
  have hexp : ((stampConfigs cs).map (fun c => noReraiseResult beh c rt)).map resultSeq
      = List.range cs.length := by
    rw [List.map_map]
    have hcong : (stampConfigs cs).map (resultSeq ∘ fun c => noReraiseResult beh c rt)
        = (stampConfigs cs).map (fun c => c.seq.getD 0) :=
      List.map_congr_left fun c _ => resultSeq_noReraiseResult beh c rt
    rw [hcong, stampConfigs, stampFrom_map_seq, List.range_eq_range']
  have hsortperm : (collectResults drained).Perm drained :=
    List.mergeSort_perm drained _
  have hperm2 : ((collectResults drained).map resultSeq).Perm
      (List.range cs.length) := by
    rw [← hexp]
    exact ((hsortperm.trans hperm).map resultSeq)
  have hsorted : ((collectResults drained).map resultSeq).Sorted (· ≤ ·) := by
    have hp := @List.sorted_mergeSort SimResult
      (fun a b => Nat.ble (resultSeq a) (resultSeq b))
      (fun a b c hab hbc => by
        simp only [Nat.ble_eq] at hab hbc ⊢
        omega)
      (fun a b => by
        simp only [Bool.or_eq_true, Nat.ble_eq]
        omega)
      drained
    exact List.pairwise_map.mpr (hp.imp fun h => by simpa [Nat.ble_eq] using h)
  have hrangeSorted : (List.range cs.length).Sorted (· ≤ ·) :=
    (List.pairwise_lt_range cs.length).imp le_of_lt
  have hmapeq : (collectResults drained).map resultSeq = List.range cs.length :=
    List.eq_of_perm_of_sorted hperm2 hsorted hrangeSorted
  refine ⟨?_, hmapeq⟩
  have hlen := congrArg List.length hmapeq
  simpa using hlen

/-- A drain order for the witness batch: the expected results, but with the
fast job finishing first (reversed completion order). -/
def drainedRev : List SimResult :=
  ((stampConfigs [cfgProg, cfgSeq99]).map (fun c => noReraiseResult behOk c 0)).reverse

theorem simulate_many_ordered_witness :
    drainedRev.Perm
      ((stampConfigs [cfgProg, cfgSeq99]).map (fun c => noReraiseResult behOk c 0)) ∧
    (collectResults drainedRev).length = ([cfgProg, cfgSeq99] : List Config).length ∧
    (collectResults drainedRev).map resultSeq =
      List.range ([cfgProg, cfgSeq99] : List Config).length :=
  ⟨List.reverse_perm _,
   simulate_many_ordered behOk 0 [cfgProg, cfgSeq99] drainedRev (List.reverse_perm _)⟩

/-- A message observed by the progress consumer: a `(seq, fraction)` sample
from `progress_queue.get()`, or a `KeyboardInterrupt` raised during that
`get()`. -/
inductive PMsg where
  | sample (seq : Nat) (frac : ℚ)
  | interrupt
deriving DecidableEq

/-- The state `_consume_progress` ends in: the notifier dict, the last
computed aggregate, and whether `pbar.finish()` (the `else` clause on
line 343) ran. -/
structure PRun where
  notifiers : List (Nat × ℚ)
  total : ℚ
  finished : Bool
deriving DecidableEq

/-- Dict assignment `notifiers[seq] = progress` (line 337): replace the
entry if the key is present, append it otherwise. -/
def dictSet : List (Nat × ℚ) → Nat → ℚ → List (Nat × ℚ)
  | [], k, v => [(k, v)]
  | p :: rest, k, v =>
      if p.1 = k then (k, v) :: rest else p :: dictSet rest k v

/-- `sum(notifiers.values()) / len(notifiers)` (line 338): the arithmetic
mean over every entry of the dict. -/
def meanOf (m : List (Nat × ℚ)) : ℚ := (m.map Prod.snd).sum / m.length

/-- Dict lookup. -/
def lookupKey (m : List (Nat × ℚ)) (k : Nat) : Option ℚ :=
  (m.find? (fun p => p.1 == k)).map Prod.snd

/-- `{config['sim.seq']: 0 for config in configs}` (line 331); `'sim.seq'`
is always present on batch configs (they are stamped), `getD 0` stands for
the subscript access. -/
def initNotifiers (configs : List Config) : List (Nat × ℚ) :=
  configs.foldl (fun m c => dictSet m (c.seq.getD 0) 0) []

/-- The `try: while total_progress < 1: ... except KeyboardInterrupt: pass
else: pbar.finish()` loop of `_consume_progress` (lines 334-343), run over a
finite message sequence.  An exhausted list while the condition still holds
models blocking forever in `get()` (no finish); an `interrupt` message exits
via the handler (no finish); leaving because the aggregate reached 1 runs
the `else` clause (`finished := true`). -/
def consumeGo (m : List (Nat × ℚ)) (total : ℚ) : List PMsg → PRun
  | [] => if total < 1 then ⟨m, total, false⟩ else ⟨m, total, true⟩
  | msg :: rest =>
      if total < 1 then
        match msg with
        | .interrupt => ⟨m, total, false⟩
        | .sample s f =>
            let m2 := dictSet m s f
            consumeGo m2 (meanOf m2) rest
      else ⟨m, total, true⟩

/-- `_consume_progress(configs, progress_queue)` over the messages the queue
delivers. -/
def consumeProgress (configs : List Config) (msgs : List PMsg) : PRun :=
  consumeGo (initNotifiers configs) 0 msgs

theorem lookupKey_dictSet_self (m : List (Nat × ℚ)) (k : Nat) (v : ℚ) :
    lookupKey (dictSet m k v) k = some v := by
  induction m with
  | nil => simp [dictSet, lookupKey, List.find?]
  | cons p rest ih =>
    by_cases h : p.1 = k
    · simp [dictSet, h, lookupKey, List.find?]
    · simp only [dictSet, if_neg h]
      simpa [lookupKey, List.find?_cons, h] using ih

theorem lookupKey_dictSet_other (m : List (Nat × ℚ)) (k k' : Nat) (v : ℚ)
    (h : k' ≠ k) : lookupKey (dictSet m k v) k' = lookupKey m k' := by
  have h2 : (k == k') = false := beq_eq_false_iff_ne.mpr (Ne.symm h)
  induction m with
  | nil => simp [dictSet, lookupKey, List.find?, h2]
  | cons p rest ih =>
    by_cases hp : p.1 = k
    · subst hp
      simp [dictSet, lookupKey, List.find?_cons, Ne.symm h, h]
    · simp only [dictSet, if_neg hp]
      by_cases hp' : p.1 = k'
      · simp [lookupKey, List.find?_cons, hp']
      · simpa [lookupKey, List.find?_cons, hp'] using ih

theorem dictSet_keys_of_mem (m : List (Nat × ℚ)) (k : Nat) (v : ℚ)
    (h : k ∈ m.map Prod.fst) :
    (dictSet m k v).map Prod.fst = m.map Prod.fst := by
  induction m with
  | nil => simp at h
  | cons p rest ih =>
    by_cases hp : p.1 = k
    · simp [dictSet, hp]
    · simp only [List.map_cons, List.mem_cons] at h
      rcases h with h | h
      · exact absurd h.symm hp
      · simp [dictSet, if_neg hp, ih h]

theorem lookupKey_initNotifiers_aux (cs : List Config) (m : List (Nat × ℚ))
    (k : Nat) (h : lookupKey m k = some 0 ∨ k ∈ cs.map (fun c => c.seq.getD 0)) :
    lookupKey (cs.foldl (fun m c => dictSet m (c.seq.getD 0) 0) m) k = some 0 := by
  induction cs generalizing m with
  | nil =>
    rcases h with h | h
    · exact h
    · simp at h
  | cons c rest ih =>
    simp only [List.foldl_cons]
    apply ih
    by_cases hk : k = c.seq.getD 0
    · subst hk
      exact Or.inl (lookupKey_dictSet_self m _ 0)
    · rcases h with h | h
      · exact Or.inl ((lookupKey_dictSet_other m _ k 0 hk).trans h)
      · simp only [List.map_cons, List.mem_cons] at h
        rcases h with h | h
        · exact absurd h hk
        · exact Or.inr h

/-- Every batch job's entry starts at 0. -/
theorem lookupKey_initNotifiers (cs : List Config) (c : Config) (hc : c ∈ cs) :
    lookupKey (initNotifiers cs) (c.seq.getD 0) = some 0 :=
  lookupKey_initNotifiers_aux cs [] _ (Or.inr (List.mem_map_of_mem _ hc))

/-- A key never sampled keeps its dict entry across the whole consume loop. -/
theorem consumeGo_unsampled (msgs : List PMsg) (m : List (Nat × ℚ))
    (total : ℚ) (k : Nat) (h : ∀ f, PMsg.sample k f ∉ msgs) :
    lookupKey (consumeGo m total msgs).notifiers k = lookupKey m k := by
  induction msgs generalizing m total with
  | nil =>
    by_cases ht : total < 1 <;> simp [consumeGo, ht]
  | cons msg rest ih =>
    by_cases ht : total < 1
    · rcases msg with ⟨s, f⟩ | _
      · have hs : s ≠ k := by
          intro hsk
          exact h f (by rw [hsk]; exact List.mem_cons_self _ _)
        have hrest : ∀ f, PMsg.sample k f ∉ rest := fun f hf =>
          h f (List.mem_cons_of_mem _ hf)
        simp only [consumeGo, if_pos ht]
        rw [ih _ _ hrest, lookupKey_dictSet_other m s k f (Ne.symm hs)]
      · simp [consumeGo, ht]
    · simp [consumeGo, ht]

/-- Batch config with seq 0. -/
def cfgSeq0 : Config := { seq := some 0 }

/-- Batch config with seq 1. -/
def cfgSeq1 : Config := { seq := some 1 }

/-- Leaving the `while` loop because the aggregate reached 1 is the only way
`finished` becomes true. -/
theorem consumeGo_finished_total (msgs : List PMsg) :
    ∀ (m : List (Nat × ℚ)) (total : ℚ),
      (consumeGo m total msgs).finished = true →
      1 ≤ (consumeGo m total msgs).total := by
  induction msgs with
  | nil =>
    intro m total h
    by_cases ht : total < 1
    · simp [consumeGo, ht] at h
    · simp only [consumeGo, if_neg ht]
      exact not_lt.mp ht
  | cons msg rest ih =>
    intro m total h
    by_cases ht : total < 1
    · rcases msg with ⟨s, f⟩ | _
      · simp only [consumeGo, if_pos ht] at h ⊢
        exact ih _ _ h
      · simp [consumeGo, ht] at h
    · simp only [consumeGo, if_neg ht]
      exact not_lt.mp ht

/-- C7: the aggregator's dict maps every batch job's `'sim.seq'` to its
last-known fraction, initialized to 0; a consumed sample updates exactly
that seq's entry, and the new aggregate is the arithmetic mean over all
entries (the whole batch stays in the denominator); samples keep being
consumed exactly while the aggregate is below 1. -/
theorem consume_progress_spec (cs : List Config) (c : Config) (hc : c ∈ cs)
    (m : List (Nat × ℚ)) (total f : ℚ) (s k : Nat) (rest msgs : List PMsg) :
    lookupKey (initNotifiers cs) (c.seq.getD 0) = some 0 ∧
    (total < 1 → consumeGo m total (PMsg.sample s f :: rest) =
      consumeGo (dictSet m s f) (meanOf (dictSet m s f)) rest) ∧
    lookupKey (dictSet m s f) s = some f ∧
    (k ≠ s → lookupKey (dictSet m s f) k = lookupKey m k) ∧
    (s ∈ m.map Prod.fst → (dictSet m s f).map Prod.fst = m.map Prod.fst) ∧
    ((consumeGo m total msgs).finished = true →
      1 ≤ (consumeGo m total msgs).total) ∧
    (1 ≤ total → consumeGo m total msgs = ⟨m, total, true⟩) := by
  refine ⟨lookupKey_initNotifiers cs c hc, ?_, lookupKey_dictSet_self m s f,
    fun hk => lookupKey_dictSet_other m s k f hk,
    dictSet_keys_of_mem m s f, consumeGo_finished_total msgs m total, ?_⟩
  · intro ht
    simp [consumeGo, ht]
  · intro ht
    have hnl : ¬ total < 1 := not_lt.mpr ht
    cases msgs <;> simp [consumeGo, hnl]

theorem consume_progress_spec_witness :
    lookupKey (initNotifiers [cfgSeq0]) (cfgSeq0.seq.getD 0) = some 0 ∧
    ((0 : ℚ) < 1 → consumeGo [(0, 0)] 0 (PMsg.sample 0 1 :: []) =
      consumeGo (dictSet [(0, 0)] 0 1) (meanOf (dictSet [(0, 0)] 0 1)) []) ∧
    lookupKey (dictSet [(0, 0)] 0 1) 0 = some 1 ∧
    (1 ≠ 0 → lookupKey (dictSet [(0, 0)] 0 1) 1 = lookupKey [(0, 0)] 1) ∧
    (0 ∈ ([(0, 0)] : List (Nat × ℚ)).map Prod.fst →
      (dictSet [(0, 0)] 0 1).map Prod.fst =
        ([(0, 0)] : List (Nat × ℚ)).map Prod.fst) ∧
    ((consumeGo [(0, 0)] 0 [PMsg.sample 0 1]).finished = true →
      1 ≤ (consumeGo [(0, 0)] 0 [PMsg.sample 0 1]).total) ∧
    ((1 : ℚ) ≤ 0 → consumeGo [(0, 0)] 0 [PMsg.sample 0 1] = ⟨[(0, 0)], 0, true⟩) :=
  consume_progress_spec [cfgSeq0] cfgSeq0 (by decide) [(0, 0)] 0 1 0 1 []
    [PMsg.sample 0 1]

/-- C8 counterexample: a user interrupt terminates the consumer, but the
finalize/render-100% action (`pbar.finish()`, in the `else` clause) does not
run: the `except KeyboardInterrupt: pass` handler skips it. -/
theorem consume_progress_interrupt_no_finish :
    (consumeProgress [cfgSeq0] [PMsg.interrupt]).finished = false := by decide

/-- C8 amended: the consumer terminates either when the aggregate reaches 1
— and then performs the finalize/render-100% action — or on user interrupt,
in which case it terminates without the finalize action. -/
theorem consume_progress_termination (m : List (Nat × ℚ)) (total : ℚ)
    (msgs rest : List PMsg) :
    (1 ≤ total → (consumeGo m total msgs).finished = true) ∧
    ((consumeGo m total msgs).finished = true →
      1 ≤ (consumeGo m total msgs).total) ∧
    (total < 1 →
      consumeGo m total (PMsg.interrupt :: rest) = ⟨m, total, false⟩) := by
  refine ⟨?_, consumeGo_finished_total msgs m total, ?_⟩
  · intro ht
    have hnl : ¬ total < 1 := not_lt.mpr ht
    cases msgs <;> simp [consumeGo, hnl]
  · intro ht
    simp [consumeGo, ht]

theorem consume_progress_termination_witness :
    (consumeGo [(0, 1)] 1 []).finished = true ∧
    1 ≤ (consumeGo [(0, 1)] 1 []).total ∧
    consumeGo [(0, 0)] 0 [PMsg.interrupt] = ⟨[(0, 0)], 0, false⟩ :=
  ⟨(consume_progress_termination [(0, 1)] 1 [] []).1 (by norm_num),
   (consume_progress_termination [(0, 1)] 1 [] []).2.1
     ((consume_progress_termination [(0, 1)] 1 [] []).1 (by norm_num)),
   (consume_progress_termination [(0, 0)] 0 [] []).2.2 (by norm_num)⟩

/-- C9 counterexample: a job that never reports contributes 0 — not 1.0 —
to the aggregate: with two jobs and only job 0 reporting completion, the
aggregate sticks at 1/2 and the consumer never finishes. -/
theorem progress_default_zero :
    lookupKey (initNotifiers [cfgSeq0, cfgSeq1]) 1 = some 0 ∧
    (consumeProgress [cfgSeq0, cfgSeq1] [PMsg.sample 0 1]).total = 1 / 2 ∧
    (consumeProgress [cfgSeq0, cfgSeq1] [PMsg.sample 0 1]).finished = false := by
  have hinit : initNotifiers [cfgSeq0, cfgSeq1] = [(0, 0), (1, 0)] := rfl
  have hd : dictSet [(0, (0 : ℚ)), (1, 0)] 0 1 = [(0, 1), (1, 0)] := rfl
  have hm : meanOf [(0, (1 : ℚ)), (1, 0)] = 1 / 2 := by
    norm_num [meanOf]
  have hrun : consumeProgress [cfgSeq0, cfgSeq1] [PMsg.sample 0 1] =
      ⟨[(0, 1), (1, 0)], 1 / 2, false⟩ := by
    rw [consumeProgress, hinit]
    simp only [consumeGo]
    rw [if_pos (by norm_num : (0 : ℚ) < 1), hd, hm]
    rw [if_pos (by norm_num : (1 : ℚ) / 2 < 1)]
  rw [hrun]
  exact ⟨by decide, rfl, rfl⟩

/-- C9 amended: a batch job whose seq never appears in any consumed sample
keeps its initial contribution of 0 throughout the run of the aggregator
(so it holds the aggregate below 1 rather than having no effect). -/
theorem progress_silent_job (cs : List Config) (c : Config) (hc : c ∈ cs)
    (msgs : List PMsg) (h : ∀ f, PMsg.sample (c.seq.getD 0) f ∉ msgs) :
    lookupKey (initNotifiers cs) (c.seq.getD 0) = some 0 ∧
    lookupKey (consumeProgress cs msgs).notifiers (c.seq.getD 0) = some 0 := by
  refine ⟨lookupKey_initNotifiers cs c hc, ?_⟩
  rw [consumeProgress, consumeGo_unsampled msgs _ 0 _ h]
  exact lookupKey_initNotifiers cs c hc

theorem progress_silent_job_witness :
    lookupKey (initNotifiers [cfgSeq0, cfgSeq1]) (cfgSeq1.seq.getD 0) = some 0 ∧
    lookupKey (consumeProgress [cfgSeq0, cfgSeq1] [PMsg.sample 0 1]).notifiers
      (cfgSeq1.seq.getD 0) = some 0 :=
  progress_silent_job [cfgSeq0, cfgSeq1] cfgSeq1 (by decide) [PMsg.sample 0 1]
    (fun f hf => by simp [cfgSeq1] at hf)
